import Mathlib

/-!
Verification of the per-stream frame synchronization engine of the
membrane video compositor (`src/native/membrane_videocompositor/src/compositor/videos.rs`).

The embedding keeps the three fields of `InputVideo` that drive the
synchronization logic: the `frames` queue (a `VecDeque<Message>`, front at the
head of the list), the `previous_frame` fallback slot, and the
`was_just_added` grace flag.  GPU resources (textures, vertex/index buffers)
carried alongside frames are irrelevant to the timing logic and are elided;
a frame is represented by its `pts` tag.
-/

namespace VideoCompositor

/-- Mirrors `enum Message { Frame { pts, frame }, EndOfStream }`. -/
inductive Message : Type where
  | frame (pts : Nat) : Message
  | endOfStream : Message
deriving DecidableEq, Repr

/-- Mirrors `enum DrawResult { Rendered(u64), NotRendered, EndOfStream }`. -/
inductive DrawResult : Type where
  | rendered (pts : Nat) : DrawResult
  | notRendered : DrawResult
  | endOfStream : DrawResult
deriving DecidableEq, Repr

/-- The synchronization-relevant state of `struct InputVideo`. -/
structure InputVideo : Type where
  frames : List Message
  previous_frame : Option Message
  was_just_added : Bool
deriving DecidableEq, Repr

/-- Mirrors `InputVideo::new`: empty queue, no fallback, `was_just_added: true`. -/
def InputVideo.new : InputVideo :=
  { frames := [], previous_frame := none, was_just_added := true }

/-- Mirrors `InputVideo::front_pts`: `Some(pts)` when the queue front is a
`Frame`, `None` otherwise (empty queue or `EndOfStream` at the front). -/
def frontPts (s : InputVideo) : Option Nat :=
  match s.frames with
  | Message.frame pts :: _ => some pts
  | _ => none

/-- Mirrors the queue-policy tail of `InputVideo::upload_data` (lines 205-217):
the GPU conversion and transformation steps above it do not touch the queue.
If `last_rendered_pts` is `None` or `pts` is strictly ahead of it, push the
frame at the back of the queue; otherwise, if the fallback currently holds a
`Frame` with strictly smaller pts, replace the fallback with this frame. -/
def uploadData (s : InputVideo) (pts : Nat) (lastRenderedPts : Option Nat) : InputVideo :=
  match lastRenderedPts with
  | none => { s with frames := s.frames ++ [Message.frame pts] }
  | some last =>
    if last < pts then
      { s with frames := s.frames ++ [Message.frame pts] }
    else
      match s.previous_frame with
      | some (Message.frame prevPts) =>
        if prevPts < pts then
          { s with previous_frame := some (Message.frame pts) }
        else s
      | _ => s

/-- Mirrors `InputVideo::send_end_of_stream`: push `EndOfStream` unconditionally. -/
def sendEndOfStream (s : InputVideo) : InputVideo :=
  { s with frames := s.frames ++ [Message.endOfStream] }

/-- Mirrors `InputVideo::pop_frame`: `pop_front` the queue; when the popped
message is a `Frame` it becomes the new `previous_frame` (a popped
`EndOfStream` is discarded without touching the fallback). -/
def popFrame (s : InputVideo) : InputVideo :=
  match s.frames with
  | [] => s
  | Message.frame pts :: rest =>
    { s with frames := rest, previous_frame := some (Message.frame pts) }
  | Message.endOfStream :: rest => { s with frames := rest }

/-- Mirrors `InputVideo::is_front_frame_too_old`: `false` when the front is
`EndOfStream`, when there is no interval, or when there is no front frame;
otherwise `interval.0 > front_pts`. -/
def isFrontFrameTooOld (s : InputVideo) (interval : Option (Nat × Nat)) : Bool :=
  match s.frames with
  | Message.endOfStream :: _ => false
  | _ =>
    match interval, frontPts s with
    | some (start, _), some p => decide (start > p)
    | _, _ => false

/-- Loop body of `InputVideo::remove_stale_frames`, with explicit fuel.  Each
iteration pops one message, so the queue length bounds the iteration count. -/
def removeStaleGo : Nat → InputVideo → Option (Nat × Nat) → InputVideo
  | 0, s, _ => s
  | Nat.succ n, s, interval =>
    if isFrontFrameTooOld s interval then removeStaleGo n (popFrame s) interval else s

/-- Mirrors `InputVideo::remove_stale_frames`:
`while is_front_frame_too_old(interval) { pop_frame() }`. -/
def removeStaleFrames (s : InputVideo) (interval : Option (Nat × Nat)) : InputVideo :=
  removeStaleGo s.frames.length s interval

/-- Mirrors `InputVideo::is_frame_ready` (lines 361-387). -/
def isFrameReady (s : InputVideo) (interval : Option (Nat × Nat)) : Bool :=
  match s.frames with
  | Message.endOfStream :: _ => true
  | _ =>
    match frontPts s with
    | none => false
    | some p =>
      match interval with
      | none => true
      | some (start, stop) =>
        if start ≤ p ∧ p ≤ stop then true
        else if s.was_just_added then true
        else false

/-- Mirrors `InputVideo::draw` (lines 283-331), restricted to its
queue/fallback/flag effect and its `DrawResult`.  The render-pass calls do not
touch the synchronization state.  Returns the result paired with the
post-state. -/
def draw (s : InputVideo) (frameInterval : Option (Nat × Nat)) : DrawResult × InputVideo :=
  match s.frames with
  | Message.frame pts :: _ =>
    match frameInterval with
    | some (_, stop) =>
      if pts > stop ∧ s.was_just_added = true then
        (DrawResult.notRendered, s)
      else
        (DrawResult.rendered pts, { s with was_just_added := false })
    | none => (DrawResult.rendered pts, { s with was_just_added := false })
  | Message.endOfStream :: _ => (DrawResult.endOfStream, s)
  | [] =>
    match s.previous_frame with
    | some (Message.frame pts) =>
      (DrawResult.rendered pts, { s with was_just_added := false })
    | some Message.endOfStream => (DrawResult.endOfStream, s)
    | none => (DrawResult.notRendered, s)

/-- Readiness predicate written from the spec's clause list (§4.2), to be
compared with the code's `isFrameReady`: true when the front is `EndOfStream`;
false when the queue is empty; with front pts `p`, true exactly when the
window is `None`, or `start ≤ p ≤ end`, or `just_added` is set. -/
def isFrameReadySpec (s : InputVideo) (w : Option (Nat × Nat)) : Bool :=
  match s.frames.head? with
  | some Message.endOfStream => true
  | none => false
  | some (Message.frame p) =>
    match w with
    | none => true
    | some (start, stop) => (decide (start ≤ p) && decide (p ≤ stop)) || s.was_just_added

/-- Staleness of one queued message relative to a window start: a `Frame` is
stale when its pts is strictly below the start; `EndOfStream` is never stale. -/
def isStale (start : Nat) : Message → Bool
  | Message.frame p => decide (p < start)
  | Message.endOfStream => false

/-- The pts values of the queued frames, in queue order. -/
def queuePts (s : InputVideo) : List Nat :=
  s.frames.filterMap fun m =>
    match m with
    | Message.frame p => some p
    | Message.endOfStream => none

/-- The pts held in the fallback slot, when it holds a `Frame`. -/
def fallbackPts (s : InputVideo) : Option Nat :=
  match s.previous_frame with
  | some (Message.frame p) => some p
  | _ => none

/-- Decidable check that a list of pts values is nondecreasing in order. -/
def sortedB : List Nat → Bool
  | [] => true
  | [_] => true
  | a :: b :: rest => decide (a ≤ b) && sortedB (b :: rest)

/-- Decidable check that the fallback pts (when present) is at most the pts
of every queued frame. -/
def fbBelowQueue (s : InputVideo) : Bool :=
  match fallbackPts s with
  | none => true
  | some p => (queuePts s).all fun q => decide (p ≤ q)

/-- An eviction-side operation: a bare `pop_frame` or a `remove_stale_frames`
call with some window. -/
inductive EvictOp : Type where
  | pop : EvictOp
  | stale (w : Option (Nat × Nat)) : EvictOp

/-- Apply one eviction operation. -/
def applyEvict : EvictOp → InputVideo → InputVideo
  | EvictOp.pop, s => popFrame s
  | EvictOp.stale w, s => removeStaleFrames s w

/-- Apply a sequence of eviction operations, left to right. -/
def runEvicts (ops : List EvictOp) (s : InputVideo) : InputVideo :=
  ops.foldl (fun t op => applyEvict op t) s

/-- Any state-changing operation of `InputVideo`. -/
inductive Op : Type where
  | upload (pts : Nat) (last : Option Nat) : Op
  | sendEos : Op
  | pop : Op
  | stale (w : Option (Nat × Nat)) : Op
  | drawTick (w : Option (Nat × Nat)) : Op

/-- Apply one operation to the state (for `draw`, keep the post-state). -/
def applyOp : Op → InputVideo → InputVideo
  | Op.upload pts last, s => uploadData s pts last
  | Op.sendEos, s => sendEndOfStream s
  | Op.pop, s => popFrame s
  | Op.stale w, s => removeStaleFrames s w
  | Op.drawTick w, s => (draw s w).2

/-- Run a sequence of operations from a freshly created `InputVideo`. -/
def run (ops : List Op) : InputVideo :=
  ops.foldl (fun s op => applyOp op s) InputVideo.new

lemma uploadData_rejected_frames (s : InputVideo) (pts l : Nat) (h : ¬ l < pts) :
    (uploadData s pts (some l)).frames = s.frames := by
  obtain ⟨fs, pf, ja⟩ := s
  simp only [uploadData, if_neg h]
  cases pf with
  | none => rfl
  | some m =>
    cases m with
    | frame q => by_cases hq : q < pts <;> simp [hq]
    | endOfStream => rfl

lemma draw_state_effect (s : InputVideo) (w : Option (Nat × Nat)) :
    (draw s w).2.frames = s.frames ∧ (draw s w).2.previous_frame = s.previous_frame := by
  obtain ⟨fs, pf, ja⟩ := s
  cases fs with
  | nil =>
    cases pf with
    | none => cases w <;> exact ⟨rfl, rfl⟩
    | some m => cases m <;> cases w <;> exact ⟨rfl, rfl⟩
  | cons m rest =>
    cases m with
    | frame p =>
      cases w with
      | none => exact ⟨rfl, rfl⟩
      | some q =>
        obtain ⟨a, b⟩ := q
        by_cases h : p > b ∧ ja = true <;> simp [draw, h]
    | endOfStream => cases w <;> exact ⟨rfl, rfl⟩

/-- C9: draw never modifies the frames queue or the fallback slot — the
selected frame stays in the queue for later ticks; only the just-added flag
may change. -/
theorem draw_preserves_queue (s : InputVideo) (w : Option (Nat × Nat)) :
    (draw s w).2.frames = s.frames ∧ (draw s w).2.previous_frame = s.previous_frame :=
  draw_state_effect s w

/-- C4: upload_data appends the Frame to the queue iff last_output_pts is
None or pts is strictly greater than it; send_end_of_stream appends
EndOfStream unconditionally. -/
theorem uploadData_enqueue_iff (s : InputVideo) (pts : Nat) (last : Option Nat) :
    ((uploadData s pts last).frames = s.frames ++ [Message.frame pts] ↔
      (last = none ∨ ∃ l, last = some l ∧ l < pts)) ∧
    (sendEndOfStream s).frames = s.frames ++ [Message.endOfStream] := by
  refine ⟨?_, rfl⟩
  cases last with
  | none => simp [uploadData]
  | some l =>
    by_cases hl : l < pts
    · simp [uploadData, hl]
    · rw [uploadData_rejected_frames s pts l hl]
      constructor
      · intro heq
        have hlen := congrArg List.length heq
        simp at hlen
      · rintro (h | ⟨l', hl', hlt⟩)
        · exact absurd h (by simp)
        · cases Option.some.inj hl'
          exact absurd hlt hl

/-- Witness for C4 at a concrete input: a frame with pts 5 is appended when
no frame has been rendered yet, and EndOfStream is appended unconditionally. -/
theorem uploadData_enqueue_iff_witness :
    (uploadData InputVideo.new 5 none).frames = [] ++ [Message.frame 5] ∧
    (sendEndOfStream InputVideo.new).frames = [] ++ [Message.endOfStream] :=
  ⟨(uploadData_enqueue_iff InputVideo.new 5 none).1.mpr (Or.inl rfl),
    (uploadData_enqueue_iff InputVideo.new 5 none).2⟩

/-- C2: the code's readiness predicate coincides with the spec's clause list:
true when the front is EndOfStream; false when the queue is empty; with front
pts p, true exactly when the window is None, or start ≤ p ≤ end, or
just_added is set. -/
theorem isFrameReady_eq_spec (s : InputVideo) (w : Option (Nat × Nat)) :
    isFrameReady s w = isFrameReadySpec s w := by
  obtain ⟨fs, pf, ja⟩ := s
  cases fs with
  | nil => cases w <;> rfl
  | cons m rest =>
    cases m with
    | frame p =>
      cases w with
      | none => rfl
      | some q =>
        obtain ⟨a, b⟩ := q
        simp only [isFrameReady, isFrameReadySpec, frontPts, List.head?]
        by_cases h1 : a ≤ p <;> by_cases h2 : p ≤ b <;> cases ja <;>
          simp [h1, h2]
    | endOfStream => cases w <;> rfl

/-- C1: when the queue front is a Frame with timestamp pts, draw returns
NotRendered with the state unchanged exactly when the window is Some((_,end))
with pts > end and the just-added flag is set; in every other case it selects
the front frame, returns Rendered(pts), and clears the just-added flag. -/
theorem draw_front_frame_characterization (s : InputVideo) (pts : Nat)
    (w : Option (Nat × Nat)) (h : s.frames.head? = some (Message.frame pts)) :
    draw s w =
      if (match w with
          | some (_, stop) => decide (pts > stop) && s.was_just_added
          | none => false) then
        (DrawResult.notRendered, s)
      else
        (DrawResult.rendered pts, { s with was_just_added := false }) := by
  obtain ⟨fs, pf, ja⟩ := s
  cases fs with
  | nil => simp at h
  | cons m rest =>
    simp only [List.head?] at h
    cases Option.some.inj h
    cases w with
    | none => rfl
    | some q =>
      obtain ⟨a, b⟩ := q
      by_cases hb : pts > b
      · cases ja with
        | true => simp [draw, hb]
        | false => simp [draw, hb]
      · simp [draw, hb]

/-- Witness for C1 at a concrete input: a just-added stream with a single
too-new frame is not rendered. -/
theorem draw_front_frame_characterization_witness :
    draw ⟨[Message.frame 100], none, true⟩ (some (0, 50)) =
      (DrawResult.notRendered, ⟨[Message.frame 100], none, true⟩) := by
  have h := draw_front_frame_characterization ⟨[Message.frame 100], none, true⟩ 100
    (some (0, 50)) rfl
  simpa using h

/-- Counterexample to C3: with queue [Frame 100] and just_added = true, the
code returns NotRendered for window Some((0,50)) where the claim says
Rendered(100); and with just_added = false it returns Rendered(100) where the
claim says NotRendered. -/
theorem draw_grace_period_counterexample :
    (draw ⟨[Message.frame 100], none, true⟩ (some (0, 50))).1 = DrawResult.notRendered ∧
    (draw ⟨[Message.frame 100], none, false⟩ (some (0, 50))).1 = DrawResult.rendered 100 := by
  exact ⟨rfl, rfl⟩

/-- C3 amended: for any fallback contents, a stream whose queue holds exactly
one Frame with pts 100 returns Rendered(100) for window = None when
just_added = true, returns NotRendered for window = Some((0,50)) while
just_added = true (the too-new frame of a just-added stream is held back),
and returns Rendered(100) for window = Some((0,50)) once just_added = false. -/
theorem draw_grace_period_amended (pf : Option Message) :
    (draw ⟨[Message.frame 100], pf, true⟩ none).1 = DrawResult.rendered 100 ∧
    (draw ⟨[Message.frame 100], pf, true⟩ (some (0, 50))).1 = DrawResult.notRendered ∧
    (draw ⟨[Message.frame 100], pf, false⟩ (some (0, 50))).1 = DrawResult.rendered 100 := by
  exact ⟨rfl, rfl, rfl⟩

/-- Counterexample to C5: with an empty fallback slot, a frame rejected from
the queue (pts 5 with last rendered pts 10) is discarded entirely — the
fallback stays empty instead of holding the most advanced below-last-shown
frame. -/
theorem uploadData_fallback_counterexample :
    (uploadData ⟨[], none, true⟩ 5 (some 10)).previous_frame = none := by
  rfl

/-- C5 amended: a frame rejected from the queue (pts ≤ last rendered pts)
replaces the fallback iff the fallback currently holds a Frame with strictly
smaller pts — when a fallback Frame with pts fp exists, the slot afterwards
holds pts max fp pts; when the fallback slot is empty the rejected frame is
discarded; in either case the queue is unchanged. -/
theorem uploadData_fallback_amended (s : InputVideo) (pts l : Nat) (h : ¬ l < pts) :
    (∀ fp, s.previous_frame = some (Message.frame fp) →
      (uploadData s pts (some l)).previous_frame = some (Message.frame (max fp pts))) ∧
    (s.previous_frame = none → (uploadData s pts (some l)).previous_frame = none) ∧
    (uploadData s pts (some l)).frames = s.frames := by
  refine ⟨?_, ?_, uploadData_rejected_frames s pts l h⟩
  · intro fp hfp
    obtain ⟨fs, pf, ja⟩ := s
    simp only at hfp
    cases hfp
    simp only [uploadData, if_neg h]
    by_cases hq : fp < pts
    · simp [hq, Nat.max_eq_right (Nat.le_of_lt hq)]
    · simp [hq, Nat.max_eq_left (Nat.le_of_not_lt hq)]
  · intro hpf
    obtain ⟨fs, pf, ja⟩ := s
    simp only at hpf
    cases hpf
    simp [uploadData, if_neg h]

/-- Witness for C5 amended at a concrete input: a rejected frame with pts 5
supersedes a fallback frame with pts 3, and the queue is untouched. -/
theorem uploadData_fallback_amended_witness :
    (uploadData ⟨[], some (Message.frame 3), true⟩ 5 (some 10)).previous_frame =
      some (Message.frame (max 3 5)) ∧
    (uploadData ⟨[], some (Message.frame 3), true⟩ 5 (some 10)).frames = [] :=
  ⟨(uploadData_fallback_amended ⟨[], some (Message.frame 3), true⟩ 5 10 (by decide)).1 3 rfl,
    (uploadData_fallback_amended ⟨[], some (Message.frame 3), true⟩ 5 10 (by decide)).2.2⟩

lemma isFrontFrameTooOld_none (s : InputVideo) : isFrontFrameTooOld s none = false := by
  obtain ⟨fs, pf, ja⟩ := s
  cases fs with
  | nil => rfl
  | cons m rest => cases m <;> rfl

lemma removeStaleGo_none (n : Nat) (s : InputVideo) : removeStaleGo n s none = s := by
  cases n with
  | zero => rfl
  | succ n => simp [removeStaleGo, isFrontFrameTooOld_none]

lemma removeStaleGo_some (st en : Nat) :
    ∀ (n : Nat) (s : InputVideo), s.frames.length ≤ n →
      removeStaleGo n s (some (st, en)) =
        { s with
          frames := s.frames.dropWhile (isStale st),
          previous_frame :=
            (s.frames.takeWhile (isStale st)).foldl (fun _ m => some m)
              s.previous_frame } := by
  intro n
  induction n with
  | zero =>
    intro s hs
    obtain ⟨fs, pf, ja⟩ := s
    have hnil : fs = [] := List.length_eq_zero.mp (Nat.le_zero.mp hs)
    subst hnil
    rfl
  | succ n ih =>
    intro s hs
    obtain ⟨fs, pf, ja⟩ := s
    cases fs with
    | nil => rfl
    | cons m rest =>
      cases m with
      | endOfStream => rfl
      | frame p =>
        by_cases hp : p < st
        · have htoo :
              isFrontFrameTooOld ⟨Message.frame p :: rest, pf, ja⟩ (some (st, en)) = true := by
            simp [isFrontFrameTooOld, frontPts, hp]
          have hlen : (rest : List Message).length ≤ n := by
            simpa using Nat.succ_le_succ_iff.mp hs
          have hpop :
              popFrame ⟨Message.frame p :: rest, pf, ja⟩ =
                ⟨rest, some (Message.frame p), ja⟩ := rfl
          have hstale : isStale st (Message.frame p) = true := by simp [isStale, hp]
          simp only [removeStaleGo, htoo, if_true, hpop,
            ih ⟨rest, some (Message.frame p), ja⟩ hlen]
          simp [List.dropWhile_cons, List.takeWhile_cons, hstale]
        · have htoo :
              isFrontFrameTooOld ⟨Message.frame p :: rest, pf, ja⟩ (some (st, en)) = false := by
            simp [isFrontFrameTooOld, frontPts]
            omega
          have hstale : isStale st (Message.frame p) = false := by simp [isStale, hp]
          simp [removeStaleGo, htoo, List.dropWhile_cons, List.takeWhile_cons, hstale]

/-- C6: remove_stale_frames pops exactly the maximal prefix of Frames whose
pts is strictly below the window start, moves each popped frame into the
fallback slot (each replacing the previous contents unconditionally), never
pops an EndOfStream message, and pops nothing when the window is None. -/
theorem removeStaleFrames_characterization (s : InputVideo) (st en : Nat) :
    removeStaleFrames s none = s ∧
    (removeStaleFrames s (some (st, en))).frames = s.frames.dropWhile (isStale st) ∧
    (removeStaleFrames s (some (st, en))).previous_frame =
      (s.frames.takeWhile (isStale st)).foldl (fun _ m => some m) s.previous_frame ∧
    Message.endOfStream ∉ s.frames.takeWhile (isStale st) := by
  refine ⟨removeStaleGo_none _ s, ?_, ?_, ?_⟩
  · rw [removeStaleFrames, removeStaleGo_some st en s.frames.length s le_rfl]
  · rw [removeStaleFrames, removeStaleGo_some st en s.frames.length s le_rfl]
  · intro hmem
    have := List.mem_takeWhile_imp hmem
    simp [isStale] at this

/-- Witness for C6 at a concrete input: with window start 5, the stale frame
with pts 1 is popped and the frame with pts 7 stays at the front. -/
theorem removeStaleFrames_characterization_witness :
    (removeStaleFrames
        ⟨[Message.frame 1, Message.frame 7], some (Message.frame 0), true⟩
        (some (5, 9))).frames =
      List.dropWhile (isStale 5) [Message.frame 1, Message.frame 7] :=
  (removeStaleFrames_characterization
    ⟨[Message.frame 1, Message.frame 7], some (Message.frame 0), true⟩ 5 9).2.1

lemma removeStaleFrames_of_not_tooOld (s : InputVideo) (w : Option (Nat × Nat))
    (h : isFrontFrameTooOld s w = false) : removeStaleFrames s w = s := by
  rw [removeStaleFrames]
  cases hl : s.frames.length with
  | zero => rfl
  | succ n => simp [removeStaleGo, h]

lemma dropWhile_head_not_stale (st : Nat) :
    ∀ (l : List Message) (m : Message),
      (l.dropWhile (isStale st)).head? = some m → isStale st m = false := by
  intro l
  induction l with
  | nil => intro m hm; simp at hm
  | cons a rest ih =>
    intro m hm
    by_cases ha : isStale st a = true
    · rw [List.dropWhile_cons_of_pos ha] at hm
      exact ih m hm
    · rw [List.dropWhile_cons_of_neg ha] at hm
      simp only [List.head?] at hm
      cases Option.some.inj hm
      exact Bool.eq_false_iff.mpr ha

lemma isFrontFrameTooOld_shape (s : InputVideo) (st en : Nat) :
    isFrontFrameTooOld s (some (st, en)) =
      match s.frames with
      | Message.frame p :: _ => decide (st > p)
      | _ => false := by
  obtain ⟨fs, pf, ja⟩ := s
  cases fs with
  | nil => rfl
  | cons m rest => cases m <;> rfl

lemma not_tooOld_after_removeStale (s : InputVideo) (w : Option (Nat × Nat)) :
    isFrontFrameTooOld (removeStaleFrames s w) w = false := by
  cases w with
  | none => exact isFrontFrameTooOld_none _
  | some q =>
    obtain ⟨st, en⟩ := q
    have hframes := (removeStaleFrames_characterization s st en).2.1
    rw [isFrontFrameTooOld_shape]
    rcases hres : (removeStaleFrames s (some (st, en))).frames with _ | ⟨m, rest⟩
    · rfl
    · cases m with
      | endOfStream => rfl
      | frame p =>
        have hhead : (s.frames.dropWhile (isStale st)).head? = some (Message.frame p) := by
          rw [← hframes, hres]
          rfl
        have hns := dropWhile_head_not_stale st s.frames (Message.frame p) hhead
        have hps : ¬ p < st := by simpa [isStale] using hns
        simp [hps]

/-- C8: calling remove_stale_frames twice in a row with the same window
yields the same resulting queue as calling it once. -/
theorem removeStaleFrames_idempotent (s : InputVideo) (w : Option (Nat × Nat)) :
    (removeStaleFrames (removeStaleFrames s w) w).frames =
      (removeStaleFrames s w).frames := by
  rw [removeStaleFrames_of_not_tooOld (removeStaleFrames s w) w
    (not_tooOld_after_removeStale s w)]

/-- Fallback order between two states: whenever the first holds a fallback
pts, the second holds one at least as large. -/
def fbGE (s t : InputVideo) : Prop :=
  ∀ p, fallbackPts s = some p → ∃ q, fallbackPts t = some q ∧ p ≤ q

/-- Invariant for eviction sequences: the queued pts are nondecreasing and
the fallback pts (when present) is at most every queued pts. -/
def EvictInv (s : InputVideo) : Prop :=
  sortedB (queuePts s) = true ∧ fbBelowQueue s = true

lemma fbGE_refl (s : InputVideo) : fbGE s s :=
  fun p hp => ⟨p, hp, Nat.le_refl p⟩

lemma fbGE_trans {s t u : InputVideo} (h1 : fbGE s t) (h2 : fbGE t u) : fbGE s u := by
  intro p hp
  obtain ⟨q, hq, hpq⟩ := h1 p hp
  obtain ⟨r, hr, hqr⟩ := h2 q hq
  exact ⟨r, hr, Nat.le_trans hpq hqr⟩

lemma sortedB_tail {a : Nat} {l : List Nat} (h : sortedB (a :: l) = true) :
    sortedB l = true := by
  cases l with
  | nil => rfl
  | cons b rest =>
    simp only [sortedB, Bool.and_eq_true] at h
    exact h.2

lemma sortedB_head_le :
    ∀ (l : List Nat) (a : Nat), sortedB (a :: l) = true → ∀ q ∈ l, a ≤ q := by
  intro l
  induction l with
  | nil =>
    intro a _ q hq
    simp at hq
  | cons b rest ih =>
    intro a h q hq
    have h' : a ≤ b ∧ sortedB (b :: rest) = true := by
      simpa [sortedB] using h
    rcases List.mem_cons.mp hq with rfl | hq'
    · exact h'.1
    · exact Nat.le_trans h'.1 (ih b h'.2 q hq')

lemma queuePts_cons_frame (p : Nat) (rest : List Message) (pf : Option Message) (ja : Bool) :
    queuePts ⟨Message.frame p :: rest, pf, ja⟩ = p :: queuePts ⟨rest, pf, ja⟩ := by
  simp [queuePts]

lemma queuePts_cons_eos (rest : List Message) (pf : Option Message) (ja : Bool) :
    queuePts ⟨Message.endOfStream :: rest, pf, ja⟩ = queuePts ⟨rest, pf, ja⟩ := by
  simp [queuePts]

lemma fbBelowQueue_iff (s : InputVideo) :
    fbBelowQueue s = true ↔ ∀ p, fallbackPts s = some p → ∀ q ∈ queuePts s, p ≤ q := by
  rw [fbBelowQueue]
  cases hfb : fallbackPts s with
  | none => simp
  | some p =>
    rw [List.all_eq_true]
    constructor
    · intro h p' hp' q hq
      cases Option.some.inj hp'
      exact of_decide_eq_true (h q hq)
    · intro h q hq
      exact decide_eq_true (h p rfl q hq)

lemma popFrame_inv (s : InputVideo) (h : EvictInv s) :
    EvictInv (popFrame s) ∧ fbGE s (popFrame s) := by
  obtain ⟨hsort, hbelow⟩ := h
  obtain ⟨fs, pf, ja⟩ := s
  cases fs with
  | nil => exact ⟨⟨hsort, hbelow⟩, fbGE_refl _⟩
  | cons m rest =>
    cases m with
    | frame p =>
      rw [queuePts_cons_frame] at hsort
      have hpop : popFrame ⟨Message.frame p :: rest, pf, ja⟩ =
          ⟨rest, some (Message.frame p), ja⟩ := rfl
      rw [hpop]
      have hle := sortedB_head_le _ p hsort
      refine ⟨⟨sortedB_tail hsort, ?_⟩, ?_⟩
      · rw [fbBelowQueue_iff]
        intro p' hp' q hq
        have : p = p' := by
          simpa [fallbackPts] using hp'
        subst this
        exact hle q hq
      · intro p' hp'
        refine ⟨p, by simp [fallbackPts], ?_⟩
        have hq := (fbBelowQueue_iff _).mp hbelow p' hp'
        have : p ∈ queuePts ⟨Message.frame p :: rest, pf, ja⟩ := by
          rw [queuePts_cons_frame]
          exact List.mem_cons_self p _
        exact hq p this
    | endOfStream =>
      have hpop : popFrame ⟨Message.endOfStream :: rest, pf, ja⟩ = ⟨rest, pf, ja⟩ := rfl
      rw [hpop]
      rw [queuePts_cons_eos] at hsort
      refine ⟨⟨hsort, ?_⟩, ?_⟩
      · rw [fbBelowQueue_iff]
        intro p' hp' q hq
        refine (fbBelowQueue_iff _).mp hbelow p' ?_ q ?_
        · simpa [fallbackPts] using hp'
        · rw [queuePts_cons_eos]
          exact hq
      · intro p' hp'
        exact ⟨p', by simpa [fallbackPts] using hp', Nat.le_refl _⟩

lemma removeStaleGo_inv :
    ∀ (n : Nat) (s : InputVideo) (w : Option (Nat × Nat)), EvictInv s →
      EvictInv (removeStaleGo n s w) ∧ fbGE s (removeStaleGo n s w) := by
  intro n
  induction n with
  | zero => intro s w h; exact ⟨h, fbGE_refl s⟩
  | succ n ih =>
    intro s w h
    rw [removeStaleGo]
    by_cases htoo : isFrontFrameTooOld s w = true
    · rw [if_pos htoo]
      obtain ⟨hinv, hge⟩ := popFrame_inv s h
      obtain ⟨hinv', hge'⟩ := ih (popFrame s) w hinv
      exact ⟨hinv', fbGE_trans hge hge'⟩
    · rw [if_neg htoo]
      exact ⟨h, fbGE_refl s⟩

lemma applyEvict_inv (op : EvictOp) (s : InputVideo) (h : EvictInv s) :
    EvictInv (applyEvict op s) ∧ fbGE s (applyEvict op s) := by
  cases op with
  | pop => exact popFrame_inv s h
  | stale w => exact removeStaleGo_inv s.frames.length s w h

lemma runEvicts_inv :
    ∀ (ops : List EvictOp) (s : InputVideo), EvictInv s →
      EvictInv (runEvicts ops s) ∧ fbGE s (runEvicts ops s) := by
  intro ops
  induction ops with
  | nil => intro s h; exact ⟨h, fbGE_refl s⟩
  | cons op rest ih =>
    intro s h
    have hstep := applyEvict_inv op s h
    have hrest := ih (applyEvict op s) hstep.1
    exact ⟨hrest.1, fbGE_trans hstep.2 hrest.2⟩

lemma uploadData_fbGE (t : InputVideo) (pts : Nat) (last : Option Nat) :
    fbGE t (uploadData t pts last) := by
  intro p hp
  obtain ⟨fs, pf, ja⟩ := t
  have hpf : pf = some (Message.frame p) := by
    rcases pf with _ | m
    · simp [fallbackPts] at hp
    · cases m with
      | frame q =>
        have : q = p := by simpa [fallbackPts] using hp
        subst this
        rfl
      | endOfStream => simp [fallbackPts] at hp
  subst hpf
  cases last with
  | none => exact ⟨p, hp, Nat.le_refl p⟩
  | some l =>
    by_cases hl : l < pts
    · refine ⟨p, ?_, Nat.le_refl p⟩
      simp [uploadData, hl, fallbackPts]
    · by_cases hq : p < pts
      · refine ⟨pts, ?_, Nat.le_of_lt hq⟩
        simp [uploadData, hl, hq, fallbackPts]
      · refine ⟨p, ?_, Nat.le_refl p⟩
        simp [uploadData, hl, hq, fallbackPts]

/-- Counterexample to C7: from a fresh stream, enqueue pts 5 (accepted), pop
it, enqueue pts 10 (accepted), enqueue pts 12 with last rendered pts 20
(rejected, so it supersedes the fallback 5) — the queue [10] is nondecreasing
and the fallback holds 12; one further pop (an evict operation) overwrites
the fallback with the older popped frame, 12 down to 10. -/
theorem fallback_monotone_counterexample :
    fallbackPts
        (run [Op.upload 5 none, Op.pop, Op.upload 10 none, Op.upload 12 (some 20)]) =
      some 12 ∧
    sortedB
        (queuePts
          (run [Op.upload 5 none, Op.pop, Op.upload 10 none, Op.upload 12 (some 20)])) =
      true ∧
    fallbackPts
        (popFrame
          (run [Op.upload 5 none, Op.pop, Op.upload 10 none, Op.upload 12 (some 20)])) =
      some 10 := by
  refine ⟨rfl, rfl, rfl⟩

/-- C7 amended: the fallback pts never decreases across any sequence of evict
operations (pop_frame / remove_stale_frames) starting from a state whose
queued pts are nondecreasing and whose fallback pts is at most every queued
pts; and a single upload_data never decreases the fallback pts from any
state.  Across mixed sequences the original claim fails: a rejected enqueue
can install a fallback newer than the queue front, which a later eviction
overwrites with an older frame. -/
theorem fallback_monotone_amended (s : InputVideo)
    (h1 : sortedB (queuePts s) = true) (h2 : fbBelowQueue s = true) :
    (∀ (ops : List EvictOp) (p : Nat), fallbackPts s = some p →
      ∃ q, fallbackPts (runEvicts ops s) = some q ∧ p ≤ q) ∧
    (∀ (t : InputVideo) (pts : Nat) (last : Option Nat) (p : Nat),
      fallbackPts t = some p →
      ∃ q, fallbackPts (uploadData t pts last) = some q ∧ p ≤ q) := by
  refine ⟨?_, ?_⟩
  · intro ops p hp
    exact (runEvicts_inv ops s ⟨h1, h2⟩).2 p hp
  · intro t pts last p hp
    exact uploadData_fbGE t pts last p hp

/-- Witness for C7 amended at a concrete input: from queue [5, 7] with
fallback 3, evicting with window (6, 9) moves frame 5 into the fallback,
which does not decrease (3 ≤ 5). -/
theorem fallback_monotone_amended_witness :
    ∃ q,
      fallbackPts
          (runEvicts [EvictOp.stale (some (6, 9))]
            ⟨[Message.frame 5, Message.frame 7], some (Message.frame 3), false⟩) =
        some q ∧ 3 ≤ q :=
  (fallback_monotone_amended
      ⟨[Message.frame 5, Message.frame 7], some (Message.frame 3), false⟩
      (by decide) (by decide)).1 [EvictOp.stale (some (6, 9))] 3 rfl

/-- The fallback slot is empty or holds a `Frame` — never `EndOfStream`. -/
def FallbackIsFrame (s : InputVideo) : Prop :=
  s.previous_frame = none ∨ ∃ p, s.previous_frame = some (Message.frame p)

lemma uploadData_fallback_shape (s : InputVideo) (pts : Nat) (last : Option Nat)
    (h : FallbackIsFrame s) : FallbackIsFrame (uploadData s pts last) := by
  obtain ⟨fs, pf, ja⟩ := s
  cases last with
  | none => exact h
  | some l =>
    by_cases hl : l < pts
    · have heq : uploadData ⟨fs, pf, ja⟩ pts (some l) =
          ⟨fs ++ [Message.frame pts], pf, ja⟩ := by
        simp [uploadData, hl]
      rw [heq]
      exact h
    · cases pf with
      | none =>
        have heq : uploadData ⟨fs, none, ja⟩ pts (some l) = ⟨fs, none, ja⟩ := by
          simp [uploadData, hl]
        rw [heq]
        exact h
      | some m =>
        cases m with
        | frame q =>
          by_cases hq : q < pts
          · right
            exact ⟨pts, by simp [uploadData, hl, hq]⟩
          · have heq : uploadData ⟨fs, some (Message.frame q), ja⟩ pts (some l) =
                ⟨fs, some (Message.frame q), ja⟩ := by
              simp [uploadData, hl, hq]
            rw [heq]
            exact h
        | endOfStream =>
          have heq : uploadData ⟨fs, some Message.endOfStream, ja⟩ pts (some l) =
              ⟨fs, some Message.endOfStream, ja⟩ := by
            simp [uploadData, hl]
          rw [heq]
          exact h

lemma popFrame_fallback_shape (s : InputVideo) (h : FallbackIsFrame s) :
    FallbackIsFrame (popFrame s) := by
  obtain ⟨fs, pf, ja⟩ := s
  cases fs with
  | nil => exact h
  | cons m rest =>
    cases m with
    | frame p => exact Or.inr ⟨p, rfl⟩
    | endOfStream => exact h

lemma removeStaleGo_fallback_shape :
    ∀ (n : Nat) (s : InputVideo) (w : Option (Nat × Nat)), FallbackIsFrame s →
      FallbackIsFrame (removeStaleGo n s w) := by
  intro n
  induction n with
  | zero => intro s w h; exact h
  | succ n ih =>
    intro s w h
    rw [removeStaleGo]
    by_cases htoo : isFrontFrameTooOld s w = true
    · rw [if_pos htoo]
      exact ih (popFrame s) w (popFrame_fallback_shape s h)
    · rw [if_neg htoo]
      exact h

lemma applyOp_fallback_shape (op : Op) (s : InputVideo) (h : FallbackIsFrame s) :
    FallbackIsFrame (applyOp op s) := by
  cases op with
  | upload pts last => exact uploadData_fallback_shape s pts last h
  | sendEos => exact h
  | pop => exact popFrame_fallback_shape s h
  | stale w => exact removeStaleGo_fallback_shape s.frames.length s w h
  | drawTick w =>
    have heff := (draw_state_effect s w).2
    rcases h with hnone | ⟨p, hp⟩
    · exact Or.inl (heff.trans hnone)
    · exact Or.inr ⟨p, heff.trans hp⟩

lemma foldl_fallback_shape :
    ∀ (ops : List Op) (s : InputVideo), FallbackIsFrame s →
      FallbackIsFrame (ops.foldl (fun t op => applyOp op t) s) := by
  intro ops
  induction ops with
  | nil => intro s h; exact h
  | cons op rest ih =>
    intro s h
    exact ih (applyOp op s) (applyOp_fallback_shape op s h)

lemma draw_empty_queue (s : InputVideo) (w : Option (Nat × Nat)) (h : s.frames = []) :
    draw s w =
      match s.previous_frame with
      | some (Message.frame pts) =>
        (DrawResult.rendered pts, { s with was_just_added := false })
      | some Message.endOfStream => (DrawResult.endOfStream, s)
      | none => (DrawResult.notRendered, s) := by
  obtain ⟨fs, pf, ja⟩ := s
  simp only at h
  subst h
  cases pf with
  | none => rfl
  | some m => cases m <;> rfl

/-- C10: in every state reachable by any operation sequence from a fresh
InputVideo, the fallback slot never holds EndOfStream — only Frame messages
are ever stored there — so the draw branch returning EndOfStream from the
fallback can never fire: with an empty queue, draw never reports
EndOfStream. -/
theorem previous_frame_never_endOfStream (ops : List Op) :
    ((run ops).previous_frame = none ∨
      ∃ p, (run ops).previous_frame = some (Message.frame p)) ∧
    (∀ w, (run ops).frames = [] → (draw (run ops) w).1 ≠ DrawResult.endOfStream) := by
  have h1 : FallbackIsFrame (run ops) :=
    foldl_fallback_shape ops InputVideo.new (Or.inl rfl)
  refine ⟨h1, ?_⟩
  intro w hfr
  rw [draw_empty_queue (run ops) w hfr]
  rcases h1 with hnone | ⟨p, hp⟩
  · simp [hnone]
  · simp [hp]

/-- Witness for C10 at a concrete input: a fresh stream has an empty queue
and draw reports NotRendered, not EndOfStream. -/
theorem previous_frame_never_endOfStream_witness :
    (draw (run []) none).1 ≠ DrawResult.endOfStream :=
  (previous_frame_never_endOfStream []).2 none rfl

end VideoCompositor
